import Mathlib

/-!
# Verification of the mp3 bulk speed-upper conversion engine

Shallow embedding of `src/Mp3_Bulk_SpeedUpperV0.4.py` (the `ConversionThread`
worker together with the `MainWindow.preview_audio` / `MainWindow.convert_files`
entry points that build and validate jobs).  The GUI layout code is out of
scope; the embedding models exactly the orchestration logic:

* the filesystem is an association list from paths to file contents;
* outcomes of the external collaborators (`ffmpeg` exit status, `shutil.copy2`
  success, `tempfile` name allocation, the audio transform itself) are supplied
  by an `Oracle` of functions, so theorems quantify over every possible
  behaviour of the environment;
* Qt signal emissions and the worker's `print` calls are recorded in order in
  a single event trace; filesystem-affecting calls are additionally recorded
  as `Action`s.
-/

namespace SpeedUpper

/-- Events observable from a run.  The first four model the Qt signals
`progress_update`, `preview_done`, `file_converted`, `conversion_done`; the
next five model the worker's `print` calls (`failedMsg` is the
`Errore durante la conversione` print, whose `CalledProcessError` text carries
the failing input path and the exit status; `replaceErrMsg` is the
`Errore durante la sostituzione` print).  `skipped` and `cancelled` are never
produced by the code: they exist so that the specification's `FileSkipped` and
`RunCancelled` events can be stated (and their absence proved). -/
inductive Event where
  | progress (current total : Nat)
  | previewReady (path : String)
  | converted (name : String)
  | runComplete (folder : String)
  | replacedMsg (path : String)
  | replaceErrMsg (path : String)
  | convMsg (path : String)
  | failedMsg (path : String)
  | allDoneMsg
  | skipped (name : String)
  | cancelled
  deriving DecidableEq, Repr

/-- Filesystem-affecting calls made by the program.  `mkdirp` is
`os.makedirs(..., exist_ok=True)`; `allocTemp` is
`tempfile.NamedTemporaryFile(suffix='.mp3', delete=False)` with the value of
its `delete` argument recorded; `ffmpeg` is the `subprocess.run` invocation of
the transcoder; `copy2` is `shutil.copy2 src dst`.  `deleteFile` is never
performed by the code: it exists so that "nothing is ever deleted" can be
stated. -/
inductive Action where
  | mkdirp (path : String)
  | allocTemp (deleteOnClose : Bool) (path : String)
  | ffmpeg (input output : String)
  | copy2 (src dst : String)
  | deleteFile (path : String)
  deriving DecidableEq, Repr

/-- The filesystem: an association list from file paths to contents. -/
abbrev FS := List (String × String)

/-- Look a path up in the filesystem (`os.path.exists p` is
`(lookupF fs p).isSome`). -/
def lookupF : FS → String → Option String
  | [], _ => none
  | (q, w) :: rest, p => if q = p then some w else lookupF rest p

/-- Write a file: overwrite the entry for `p` if present, append otherwise. -/
def setF : FS → String → String → FS
  | [], p, v => [(p, v)]
  | (q, w) :: rest, p, v => if q = p then (p, v) :: rest else (q, w) :: setF rest p v

/-- Split a character list on a separator character (auxiliary for
`basename`; written over `List Char` so that it evaluates by kernel
reduction). -/
def splitOnChar (c : Char) : List Char → List (List Char)
  | [] => [[]]
  | x :: xs =>
      let r := splitOnChar c xs
      if x = c then [] :: r
      else
        match r with
        | [] => [[x]]
        | y :: ys => (x :: y) :: ys

/-- `os.path.basename` on POSIX paths: everything after the last slash. -/
def basename (p : String) : String :=
  String.mk ((splitOnChar '/' p.data).getLastD [])

/-- Does the string begin with a path separator (absolute path)? -/
def startsWithSlash (s : String) : Bool :=
  match s.data with
  | [] => false
  | c :: _ => c = '/'

/-- Does the string end with a path separator? -/
def endsWithSlash (s : String) : Bool :=
  match s.data.getLast? with
  | some c => c = '/'
  | none => false

/-- `os.path.join a b` on POSIX paths. -/
def joinPath (a b : String) : String :=
  if startsWithSlash b then b
  else if a = "" then b
  else if endsWithSlash a then a ++ b
  else a ++ "/" ++ b

/-- The whitespace characters removed by Python's `str.strip()`. -/
def isSpaceChar (c : Char) : Bool :=
  c = ' ' || c = '\t' || c = '\n' || c = '\r' || c = '\x0b' || c = '\x0c'

/-- Python's `str.strip()`: remove leading and trailing whitespace. -/
def stripStr (s : String) : String :=
  String.mk (((s.data.dropWhile isSpaceChar).reverse.dropWhile isSpaceChar).reverse)

/-- The `ConversionThread` constructor arguments (lines 19-25 of the source).
`speed_factor` is a Python float restricted by the GUI combo box; it is only
ever interpolated into the `atempo=` filter argument, so the run semantics
does not depend on it. -/
structure ConversionThread where
  input_files : List String
  speed_factor : ℚ
  output_folder : String
  is_preview : Bool
  replace_original : Bool
  deriving DecidableEq, Repr

/-- Environment behaviour: exit status of the transcoder on an
(input, output) pair, the content transform it applies, success of
`shutil.copy2` on a (src, dst) pair, and the fresh name returned by the
`n`-th `tempfile.NamedTemporaryFile` allocation of the run. -/
structure Oracle where
  transcodeOk : String → String → Bool
  transcoded : String → String
  copyOk : String → String → Bool
  tmpName : Nat → String

/-- State threaded through a run: filesystem, count of temp files allocated
so far, and the traces accumulated so far. -/
structure St where
  fs : FS
  tmpCtr : Nat
  events : List Event
  actions : List Action
  deriving Repr

/-- One iteration of the `for index, input_file in enumerate(self.input_files)`
loop of `ConversionThread.run` (lines 33-72 of the source):
existence check (a missing file is silently skipped by `continue`),
output-path selection (fresh temp file in preview mode, else
`os.path.join(output_folder, basename(input))`), the `ffmpeg` invocation, and
on success either the `preview_done` signal (preview) or the optional
replace-original copy followed by the `file_converted` signal (batch); the
`progress_update` signal fires after every invocation, successful or not. -/
def processFile (t : ConversionThread) (o : Oracle) (total idx : Nat)
    (input : String) (s : St) : St :=
  if (lookupF s.fs input).isSome = false then s
  else
    let po : String × St :=
      if t.is_preview then
        let name := o.tmpName s.tmpCtr
        (name, { s with tmpCtr := s.tmpCtr + 1,
                        actions := s.actions ++ [Action.allocTemp false name] })
      else
        (joinPath t.output_folder (basename input), s)
    let output := po.1
    let s1 := po.2
    let s2 := { s1 with actions := s1.actions ++ [Action.ffmpeg input output] }
    if o.transcodeOk input output then
      let s3 := { s2 with
        fs := setF s2.fs output (o.transcoded ((lookupF s2.fs input).getD "")) }
      if t.is_preview then
        { s3 with events := s3.events ++
            [Event.previewReady output, Event.progress (idx + 1) total] }
      else
        let s4 :=
          if t.replace_original && !t.is_preview then
            let s4a := { s3 with actions := s3.actions ++ [Action.copy2 output input] }
            if o.copyOk output input then
              { s4a with fs := setF s4a.fs input ((lookupF s4a.fs output).getD ""),
                         events := s4a.events ++ [Event.replacedMsg input] }
            else
              { s4a with events := s4a.events ++ [Event.replaceErrMsg input] }
          else s3
        { s4 with events := s4.events ++
            [Event.convMsg input, Event.converted (basename input),
             Event.progress (idx + 1) total] }
    else
      { s2 with events := s2.events ++
          [Event.failedMsg input, Event.progress (idx + 1) total] }

/-- The per-file loop of `ConversionThread.run`. -/
def runLoop (t : ConversionThread) (o : Oracle) (total : Nat) :
    Nat → List String → St → St
  | _, [], s => s
  | idx, f :: rest, s =>
      runLoop t o total (idx + 1) rest (processFile t o total idx f s)

/-- `ConversionThread.run` (lines 27-76 of the source): in batch mode create
the output folder, run the loop with `total_files = len(input_files)`, and in
batch mode finish with the `Tutti i file` print and the `conversion_done`
signal. -/
def ConversionThread.run (t : ConversionThread) (o : Oracle) (fs0 : FS) : St :=
  let s0 : St := { fs := fs0, tmpCtr := 0, events := [], actions := [] }
  let s0 := if t.is_preview then s0
            else { s0 with actions := s0.actions ++ [Action.mkdirp t.output_folder] }
  let s1 := runLoop t o t.input_files.length 0 t.input_files s0
  if t.is_preview then s1
  else { s1 with events := s1.events ++
          [Event.allDoneMsg, Event.runComplete t.output_folder] }

/-- `MainWindow.preview_audio` (lines 326-348 of the source): reject an empty
selection, create the preview folder under the user's home, and start a
preview thread over `[input_files[0]]` only, with `replace_original = False`.
Returns the folder-creation action together with the constructed thread. -/
def preview_audio (home : String) (input_files : List String) (speed : ℚ) :
    Option (List Action × ConversionThread) :=
  if input_files.isEmpty then none
  else
    let preview_folder := joinPath (joinPath home "Downloads") "AudioSpeedUpper_Preview"
    some ([Action.mkdirp preview_folder],
      { input_files := [input_files.headD ""],
        speed_factor := speed,
        output_folder := preview_folder,
        is_preview := true,
        replace_original := false })

/-- Outcome of `MainWindow.convert_files`: one of the two warning dialogs, an
early return because the user declined the replace-original confirmation, or a
started conversion thread. -/
inductive ConvertOutcome where
  | warnNoFiles
  | warnNoOutput
  | userDeclined
  | started (t : ConversionThread)
  deriving DecidableEq, Repr

/-- `MainWindow.convert_files` (lines 364-409 of the source): warn and stop on
an empty input list, warn and stop on a blank (stripped) output folder, ask
for confirmation when replace-original is checked, else start the batch
thread.  The speed factor is read from the combo box and never validated. -/
def convert_files (input_files : List String) (speed : ℚ)
    (output_text : String) (replace_checked user_confirms : Bool) :
    ConvertOutcome :=
  if input_files.isEmpty then ConvertOutcome.warnNoFiles
  else
    let output_folder := stripStr output_text
    if output_folder = "" then ConvertOutcome.warnNoOutput
    else if replace_checked && !user_confirms then ConvertOutcome.userDeclined
    else ConvertOutcome.started
      { input_files := input_files,
        speed_factor := speed,
        output_folder := output_folder,
        is_preview := false,
        replace_original := replace_checked }

/-- The `(current, total)` payloads of the progress events of a trace. -/
def progressEvents (evs : List Event) : List (Nat × Nat) :=
  evs.filterMap fun e =>
    match e with
    | Event.progress c tot => some (c, tot)
    | _ => none

/-- Names carried by `converted` events of a trace. -/
def convertedNames (evs : List Event) : List String :=
  evs.filterMap fun e =>
    match e with
    | Event.converted n => some n
    | _ => none

/-- Input paths of the recorded `ffmpeg` invocations, in order. -/
def ffmpegInputs (as : List Action) : List String :=
  as.filterMap fun a =>
    match a with
    | Action.ffmpeg i _ => some i
    | _ => none

/-- Count of events satisfying a Boolean predicate. -/
def countE (p : Event → Bool) (evs : List Event) : Nat :=
  (evs.filter p).length

def isPreviewReady : Event → Bool
  | Event.previewReady _ => true
  | _ => false

def isFailedMsg : Event → Bool
  | Event.failedMsg _ => true
  | _ => false

def isRunComplete : Event → Bool
  | Event.runComplete _ => true
  | _ => false

def isStarted : ConvertOutcome → Bool
  | ConvertOutcome.started _ => true
  | _ => false

/-- The output path chosen for one file at temp-counter `ctr`. -/
def pfOut (t : ConversionThread) (o : Oracle) (input : String) (ctr : Nat) : String :=
  if t.is_preview then o.tmpName ctr else joinPath t.output_folder (basename input)

/-- Events appended by `processFile` for one file, as a function of the
filesystem and temp counter at that point. -/
def pfDelta (t : ConversionThread) (o : Oracle) (total idx : Nat)
    (input : String) (fs : FS) (ctr : Nat) : List Event :=
  if (lookupF fs input).isSome = false then []
  else
    let output := pfOut t o input ctr
    if o.transcodeOk input output then
      if t.is_preview then
        [Event.previewReady output, Event.progress (idx + 1) total]
      else
        (if t.replace_original && !t.is_preview then
          (if o.copyOk output input then [Event.replacedMsg input]
           else [Event.replaceErrMsg input])
         else [])
        ++ [Event.convMsg input, Event.converted (basename input),
            Event.progress (idx + 1) total]
    else
      [Event.failedMsg input, Event.progress (idx + 1) total]

/-- Actions appended by `processFile` for one file. -/
def pfActs (t : ConversionThread) (o : Oracle) (input : String)
    (fs : FS) (ctr : Nat) : List Action :=
  if (lookupF fs input).isSome = false then []
  else
    let output := pfOut t o input ctr
    (if t.is_preview then [Action.allocTemp false output] else [])
    ++ [Action.ffmpeg input output]
    ++ (if o.transcodeOk input output && (t.replace_original && !t.is_preview) then
          [Action.copy2 output input]
        else [])

/-- Filesystem after `processFile` for one file. -/
def pfFs (t : ConversionThread) (o : Oracle) (input : String)
    (fs : FS) (ctr : Nat) : FS :=
  if (lookupF fs input).isSome = false then fs
  else
    let output := pfOut t o input ctr
    if o.transcodeOk input output then
      let fs1 := setF fs output (o.transcoded ((lookupF fs input).getD ""))
      if t.replace_original && !t.is_preview && o.copyOk output input then
        setF fs1 input ((lookupF fs1 output).getD "")
      else fs1
    else fs

/-- Temp-counter increment of `processFile` for one file. -/
def pfCtr (t : ConversionThread) (input : String) (fs : FS) : Nat :=
  if (lookupF fs input).isSome && t.is_preview then 1 else 0

/-- An environment in which every transcode and every copy succeeds. -/
def oracleAll : Oracle :=
  { transcodeOk := fun _ _ => true, transcoded := fun c => "fast:" ++ c,
    copyOk := fun _ _ => true, tmpName := fun n => "tmp" ++ toString n ++ ".mp3" }

/-- An environment in which transcodes succeed but every copy over the
original fails. -/
def oracleCopyFail : Oracle := { oracleAll with copyOk := fun _ _ => false }

/-- An environment in which the transcode of `a.mp3` fails and every other
transcode succeeds. -/
def oracleFailA : Oracle :=
  { oracleAll with transcodeOk := fun i _ => !(i == "a.mp3") }

/-- A filesystem holding `a.mp3` and `b.mp3` (and no `missing.mp3`). -/
def fsAB : FS := [("a.mp3", "A"), ("b.mp3", "B")]

/-- The worked example of the specification: a batch job over a present, a
missing, and a present file. -/
def exampleBatch : ConversionThread :=
  { input_files := ["a.mp3", "missing.mp3", "b.mp3"], speed_factor := 2,
    output_folder := "out", is_preview := false, replace_original := false }

def isSkipped : Event → Bool
  | Event.skipped _ => true
  | _ => false

def isConvertedE : Event → Bool
  | Event.converted _ => true
  | _ => false

/-- A filesystem holding three input files. -/
def fsABC : FS := [("a.mp3", "A"), ("b.mp3", "B"), ("c.mp3", "C")]

/-- A batch job over three existing files. -/
def batch3 : ConversionThread :=
  { input_files := ["a.mp3", "b.mp3", "c.mp3"], speed_factor := 2,
    output_folder := "out", is_preview := false, replace_original := false }

/-- A batch job over one file with replace-original enabled. -/
def replJob : ConversionThread :=
  { input_files := ["a.mp3"], speed_factor := 2,
    output_folder := "out", is_preview := false, replace_original := true }

/-- The preview folder `preview_audio` derives for home directory `/root`. -/
def previewFolderRoot : String :=
  joinPath (joinPath "/root" "Downloads") "AudioSpeedUpper_Preview"

/-- The thread `preview_audio "/root" ["a.mp3", "b.mp3"] 2` constructs. -/
def previewJobA : ConversionThread :=
  { input_files := ["a.mp3"], speed_factor := 2,
    output_folder := previewFolderRoot, is_preview := true,
    replace_original := false }

/-- The thread `preview_audio "/root" ["missing.mp3"] 2` constructs. -/
def previewJobMissing : ConversionThread :=
  { input_files := ["missing.mp3"], speed_factor := 2,
    output_folder := previewFolderRoot, is_preview := true,
    replace_original := false }

theorem processFile_decomp (t : ConversionThread) (o : Oracle)
    (total idx : Nat) (input : String) (s : St) :
    processFile t o total idx input s =
      { fs := pfFs t o input s.fs s.tmpCtr,
        tmpCtr := s.tmpCtr + pfCtr t input s.fs,
        events := s.events ++ pfDelta t o total idx input s.fs s.tmpCtr,
        actions := s.actions ++ pfActs t o input s.fs s.tmpCtr } := by
  unfold processFile pfFs pfCtr pfDelta pfActs pfOut
  by_cases hx : (lookupF s.fs input).isSome = false
  · simp [hx]
  · have hx2 : (lookupF s.fs input).isSome = true := by
      revert hx; cases lookupF s.fs input <;> simp
    by_cases hp : t.is_preview <;>
      by_cases ht : o.transcodeOk input (if t.is_preview then o.tmpName s.tmpCtr
        else joinPath t.output_folder (basename input)) = true <;>
      by_cases hr : t.replace_original <;>
      simp_all <;>
      by_cases hc : o.copyOk (joinPath t.output_folder (basename input)) input <;>
      simp_all [List.append_assoc]

theorem lookupF_setF (fs : FS) (p v q) :
    lookupF (setF fs p v) q = if q = p then some v else lookupF fs q := by
  induction fs with
  | nil =>
      by_cases h : q = p
      · subst h; simp [setF, lookupF]
      · simp [setF, lookupF, h, Ne.symm h]
  | cons hd rest ih =>
      obtain ⟨a, b⟩ := hd
      by_cases hap : a = p <;> by_cases hqp : q = p <;> by_cases haq : a = q <;>
        simp_all [setF, lookupF]

theorem isSome_lookupF_setF {fs : FS} {q : String} (p v)
    (h : (lookupF fs q).isSome = true) :
    (lookupF (setF fs p v) q).isSome = true := by
  rw [lookupF_setF]
  by_cases hqp : q = p <;> simp [hqp, h]

theorem pfFs_preserves (t : ConversionThread) (o : Oracle) (input : String)
    (fs : FS) (ctr : Nat) {q : String} (h : (lookupF fs q).isSome = true) :
    (lookupF (pfFs t o input fs ctr) q).isSome = true := by
  have h2 : ∀ (p v : String),
      (lookupF (setF fs p v) q).isSome = true :=
    fun p v => isSome_lookupF_setF p v h
  have h3 : ∀ (p v p2 v2 : String),
      (lookupF (setF (setF fs p v) p2 v2) q).isSome = true :=
    fun p v p2 v2 => isSome_lookupF_setF p2 v2 (isSome_lookupF_setF p v h)
  unfold pfFs
  by_cases hx : (lookupF fs input).isSome = false <;>
    by_cases ht : o.transcodeOk input (pfOut t o input ctr) = true <;>
    by_cases hr : t.replace_original = true <;>
    by_cases hp : t.is_preview = true <;>
    by_cases hc : o.copyOk (pfOut t o input ctr) input = true <;>
    simp_all

theorem runLoop_events_subset (t : ConversionThread) (o : Oracle) (total : Nat) :
    ∀ (l : List String) (idx : Nat) (s : St),
      ∀ e ∈ (runLoop t o total idx l s).events,
        e ∈ s.events ∨
          ∃ fs ctr idx2 input, input ∈ l ∧ e ∈ pfDelta t o total idx2 input fs ctr := by
  intro l
  induction l with
  | nil => intro idx s e he; exact Or.inl he
  | cons f rest ih =>
      intro idx s e he
      rcases ih (idx + 1) (processFile t o total idx f s) e he with h | h
      · rw [processFile_decomp] at h
        simp only [List.mem_append] at h
        rcases h with h | h
        · exact Or.inl h
        · exact Or.inr ⟨s.fs, s.tmpCtr, idx, f, by simp, h⟩
      · obtain ⟨fs, ctr, idx2, input, hmem, hin⟩ := h
        exact Or.inr ⟨fs, ctr, idx2, input, by simp [hmem], hin⟩

theorem runLoop_actions_subset (t : ConversionThread) (o : Oracle) (total : Nat) :
    ∀ (l : List String) (idx : Nat) (s : St),
      ∀ a ∈ (runLoop t o total idx l s).actions,
        a ∈ s.actions ∨
          ∃ fs ctr input, input ∈ l ∧ a ∈ pfActs t o input fs ctr := by
  intro l
  induction l with
  | nil => intro idx s a ha; exact Or.inl ha
  | cons f rest ih =>
      intro idx s a ha
      rcases ih (idx + 1) (processFile t o total idx f s) a ha with h | h
      · rw [processFile_decomp] at h
        simp only [List.mem_append] at h
        rcases h with h | h
        · exact Or.inl h
        · exact Or.inr ⟨s.fs, s.tmpCtr, f, by simp, h⟩
      · obtain ⟨fs, ctr, input, hmem, hin⟩ := h
        exact Or.inr ⟨fs, ctr, input, by simp [hmem], hin⟩

theorem runComplete_not_mem_pfDelta (t : ConversionThread) (o : Oracle)
    (total idx : Nat) (input : String) (fs : FS) (ctr : Nat) (x : String) :
    Event.runComplete x ∉ pfDelta t o total idx input fs ctr := by
  unfold pfDelta
  by_cases hx : (lookupF fs input).isSome = false <;>
    by_cases ht : o.transcodeOk input (pfOut t o input ctr) = true <;>
    by_cases hr : t.replace_original = true <;>
    by_cases hp : t.is_preview = true <;>
    by_cases hc : o.copyOk (pfOut t o input ctr) input = true <;>
    simp_all

theorem cancelled_not_mem_pfDelta (t : ConversionThread) (o : Oracle)
    (total idx : Nat) (input : String) (fs : FS) (ctr : Nat) :
    Event.cancelled ∉ pfDelta t o total idx input fs ctr := by
  unfold pfDelta
  by_cases hx : (lookupF fs input).isSome = false <;>
    by_cases ht : o.transcodeOk input (pfOut t o input ctr) = true <;>
    by_cases hr : t.replace_original = true <;>
    by_cases hp : t.is_preview = true <;>
    by_cases hc : o.copyOk (pfOut t o input ctr) input = true <;>
    simp_all

theorem skipped_not_mem_pfDelta (t : ConversionThread) (o : Oracle)
    (total idx : Nat) (input : String) (fs : FS) (ctr : Nat) (x : String) :
    Event.skipped x ∉ pfDelta t o total idx input fs ctr := by
  unfold pfDelta
  by_cases hx : (lookupF fs input).isSome = false <;>
    by_cases ht : o.transcodeOk input (pfOut t o input ctr) = true <;>
    by_cases hr : t.replace_original = true <;>
    by_cases hp : t.is_preview = true <;>
    by_cases hc : o.copyOk (pfOut t o input ctr) input = true <;>
    simp_all

theorem copy2_mem_pfActs {t : ConversionThread} {o : Oracle} {input : String}
    {fs : FS} {ctr : Nat} {src dst : String}
    (h : Action.copy2 src dst ∈ pfActs t o input fs ctr) :
    t.is_preview = false ∧ t.replace_original = true ∧ dst = input ∧
      src = pfOut t o input ctr ∧ o.transcodeOk dst src = true := by
  unfold pfActs at h
  split at h
  · simp at h
  · by_cases hp : t.is_preview <;>
      by_cases ht : o.transcodeOk input (pfOut t o input ctr) = true <;>
      by_cases hr : t.replace_original <;>
      simp_all

theorem deleteFile_not_mem_pfActs (t : ConversionThread) (o : Oracle)
    (input : String) (fs : FS) (ctr : Nat) (x : String) :
    Action.deleteFile x ∉ pfActs t o input fs ctr := by
  unfold pfActs
  split
  · simp
  · by_cases hp : t.is_preview <;>
      by_cases ht : o.transcodeOk input (pfOut t o input ctr) = true <;>
      by_cases hr : t.replace_original <;>
      simp_all

theorem allocTemp_mem_pfActs {t : ConversionThread} {o : Oracle} {input : String}
    {fs : FS} {ctr : Nat} {b : Bool} {p : String}
    (h : Action.allocTemp b p ∈ pfActs t o input fs ctr) :
    b = false ∧ t.is_preview = true ∧ p = o.tmpName ctr := by
  unfold pfActs at h
  split at h
  · simp at h
  · by_cases hp : t.is_preview <;>
      by_cases ht : (o.transcodeOk input (pfOut t o input ctr) &&
        (t.replace_original && !t.is_preview)) = true <;>
      simp_all [pfOut]

theorem progressEvents_append (a b : List Event) :
    progressEvents (a ++ b) = progressEvents a ++ progressEvents b := by
  simp [progressEvents, List.filterMap_append]

theorem progressEvents_pfDelta (t : ConversionThread) (o : Oracle)
    (total idx : Nat) (input : String) (fs : FS) (ctr : Nat)
    (h : (lookupF fs input).isSome = true) :
    progressEvents (pfDelta t o total idx input fs ctr) = [(idx + 1, total)] := by
  unfold pfDelta
  by_cases ht : o.transcodeOk input (pfOut t o input ctr) = true <;>
    by_cases hr : t.replace_original = true <;>
    by_cases hp : t.is_preview = true <;>
    by_cases hc : o.copyOk (pfOut t o input ctr) input = true <;>
    simp_all [progressEvents]

theorem pfDelta_of_missing (t : ConversionThread) (o : Oracle)
    (total idx : Nat) (input : String) (fs : FS) (ctr : Nat)
    (h : (lookupF fs input).isSome = false) :
    pfDelta t o total idx input fs ctr = [] := by
  unfold pfDelta
  simp [h]

theorem runLoop_progress (t : ConversionThread) (o : Oracle) (total : Nat) :
    ∀ (l : List String) (idx : Nat) (s : St),
      (∀ f ∈ l, (lookupF s.fs f).isSome = true) →
      progressEvents (runLoop t o total idx l s).events =
        progressEvents s.events ++
          (List.range l.length).map (fun i => (idx + i + 1, total)) := by
  intro l
  induction l with
  | nil => intro idx s _; simp [runLoop]
  | cons f rest ih =>
      intro idx s hall
      have hf : (lookupF s.fs f).isSome = true := hall f (by simp)
      have hrest : ∀ g ∈ rest, (lookupF (processFile t o total idx f s).fs g).isSome = true := by
        intro g hg
        rw [processFile_decomp]
        exact pfFs_preserves t o f s.fs s.tmpCtr (hall g (by simp [hg]))
      have step := ih (idx + 1) (processFile t o total idx f s) hrest
      rw [runLoop, step, processFile_decomp]
      simp only [progressEvents_append, progressEvents_pfDelta t o total idx f s.fs s.tmpCtr hf,
        List.length_cons, List.range_succ_eq_map]
      simp [List.map_map, Function.comp, List.append_assoc]
      intro a _
      omega

theorem ffmpegInputs_append (a b : List Action) :
    ffmpegInputs (a ++ b) = ffmpegInputs a ++ ffmpegInputs b := by
  simp [ffmpegInputs, List.filterMap_append]

theorem ffmpegInputs_pfActs (t : ConversionThread) (o : Oracle)
    (input : String) (fs : FS) (ctr : Nat)
    (h : (lookupF fs input).isSome = true) :
    ffmpegInputs (pfActs t o input fs ctr) = [input] := by
  unfold pfActs
  by_cases ht : (o.transcodeOk input (pfOut t o input ctr) &&
      (t.replace_original && !t.is_preview)) = true <;>
    by_cases hp : t.is_preview = true <;>
    simp_all [ffmpegInputs]

theorem pfActs_of_missing (t : ConversionThread) (o : Oracle)
    (input : String) (fs : FS) (ctr : Nat)
    (h : (lookupF fs input).isSome = false) :
    pfActs t o input fs ctr = [] := by
  unfold pfActs
  simp [h]

theorem runLoop_ffmpeg (t : ConversionThread) (o : Oracle) (total : Nat) :
    ∀ (l : List String) (idx : Nat) (s : St),
      (∀ f ∈ l, (lookupF s.fs f).isSome = true) →
      ffmpegInputs (runLoop t o total idx l s).actions =
        ffmpegInputs s.actions ++ l := by
  intro l
  induction l with
  | nil => intro idx s _; simp [runLoop]
  | cons f rest ih =>
      intro idx s hall
      have hf : (lookupF s.fs f).isSome = true := hall f (by simp)
      have hrest : ∀ g ∈ rest, (lookupF (processFile t o total idx f s).fs g).isSome = true := by
        intro g hg
        rw [processFile_decomp]
        exact pfFs_preserves t o f s.fs s.tmpCtr (hall g (by simp [hg]))
      have step := ih (idx + 1) (processFile t o total idx f s) hrest
      rw [runLoop, step, processFile_decomp]
      simp [ffmpegInputs_append, ffmpegInputs_pfActs t o f s.fs s.tmpCtr hf]

theorem pfDelta_filter_runComplete (t : ConversionThread) (o : Oracle)
    (total idx : Nat) (input : String) (fs : FS) (ctr : Nat) :
    (pfDelta t o total idx input fs ctr).filter isRunComplete = [] := by
  unfold pfDelta
  by_cases hx : (lookupF fs input).isSome = false <;>
    by_cases ht : o.transcodeOk input (pfOut t o input ctr) = true <;>
    by_cases hr : t.replace_original = true <;>
    by_cases hp : t.is_preview = true <;>
    by_cases hc : o.copyOk (pfOut t o input ctr) input = true <;>
    simp_all [isRunComplete]

theorem runLoop_filter_stable (t : ConversionThread) (o : Oracle) (total : Nat)
    (p : Event → Bool)
    (hp : ∀ fs ctr idx input, (pfDelta t o total idx input fs ctr).filter p = []) :
    ∀ (l : List String) (idx : Nat) (s : St),
      ((runLoop t o total idx l s).events).filter p = s.events.filter p := by
  intro l
  induction l with
  | nil => intro idx s; simp [runLoop]
  | cons f rest ih =>
      intro idx s
      rw [runLoop, ih, processFile_decomp]
      simp [List.filter_append, hp]

theorem batch_run_events (t : ConversionThread) (o : Oracle) (fs0 : FS)
    (h : t.is_preview = false) :
    (t.run o fs0).events =
      (runLoop t o t.input_files.length 0 t.input_files
        { fs := fs0, tmpCtr := 0, events := [],
          actions := [Action.mkdirp t.output_folder] }).events ++
        [Event.allDoneMsg, Event.runComplete t.output_folder] := by
  unfold ConversionThread.run
  simp [h]

theorem batch_run_last (t : ConversionThread) (o : Oracle) (fs0 : FS)
    (h : t.is_preview = false) :
    ((t.run o fs0).events).getLast? = some (Event.runComplete t.output_folder) := by
  rw [batch_run_events t o fs0 h,
    List.getLast?_append_cons]
  rfl

theorem batch_run_runComplete_count (t : ConversionThread) (o : Oracle) (fs0 : FS)
    (h : t.is_preview = false) :
    countE isRunComplete (t.run o fs0).events = 1 := by
  rw [countE, batch_run_events t o fs0 h, List.filter_append,
    runLoop_filter_stable t o t.input_files.length isRunComplete
      (fun fs ctr idx input =>
        pfDelta_filter_runComplete t o t.input_files.length idx input fs ctr)]
  simp [isRunComplete]

theorem preview_run_events_eq (t : ConversionThread) (o : Oracle) (fs0 : FS)
    (h : t.is_preview = true) :
    t.run o fs0 =
      runLoop t o t.input_files.length 0 t.input_files
        { fs := fs0, tmpCtr := 0, events := [], actions := [] } := by
  unfold ConversionThread.run
  simp [h]

theorem preview_run_runComplete_count (t : ConversionThread) (o : Oracle) (fs0 : FS)
    (h : t.is_preview = true) :
    countE isRunComplete (t.run o fs0).events = 0 := by
  rw [countE, preview_run_events_eq t o fs0 h,
    runLoop_filter_stable t o t.input_files.length isRunComplete
      (fun fs ctr idx input =>
        pfDelta_filter_runComplete t o t.input_files.length idx input fs ctr)]
  simp

theorem run_actions_subset (t : ConversionThread) (o : Oracle) (fs0 : FS) :
    ∀ a ∈ (t.run o fs0).actions,
      a = Action.mkdirp t.output_folder ∨
        ∃ fs ctr input, input ∈ t.input_files ∧ a ∈ pfActs t o input fs ctr := by
  intro a ha
  unfold ConversionThread.run at ha
  by_cases hp : t.is_preview = true <;> simp only [hp, if_true, if_false] at ha
  · rcases runLoop_actions_subset t o t.input_files.length t.input_files 0 _ a ha with h | h
    · simp at h
    · exact Or.inr h
  · rcases runLoop_actions_subset t o t.input_files.length t.input_files 0 _ a ha with h | h
    · simp at h
      exact Or.inl h
    · exact Or.inr h

theorem run_events_subset (t : ConversionThread) (o : Oracle) (fs0 : FS) :
    ∀ e ∈ (t.run o fs0).events,
      e = Event.allDoneMsg ∨ e = Event.runComplete t.output_folder ∨
        ∃ fs ctr idx input, input ∈ t.input_files ∧
          e ∈ pfDelta t o t.input_files.length idx input fs ctr := by
  intro e he
  by_cases hp : t.is_preview = true
  · rw [preview_run_events_eq t o fs0 hp] at he
    rcases runLoop_events_subset t o t.input_files.length t.input_files 0 _ e he with h | h
    · simp at h
    · exact Or.inr (Or.inr h)
  · rw [batch_run_events t o fs0 (by simpa using hp)] at he
    simp only [List.mem_append] at he
    rcases he with he | he
    · rcases runLoop_events_subset t o t.input_files.length t.input_files 0 _ e he with h | h
      · simp at h
      · exact Or.inr (Or.inr h)
    · simp at he
      rcases he with he | he
      · exact Or.inl he
      · exact Or.inr (Or.inl he)

theorem preview_run_cases (t : ConversionThread) (o : Oracle) (fs0 : FS) (hd : String)
    (hp : t.is_preview = true) (hl : t.input_files = [hd]) :
    ((lookupF fs0 hd).isSome = false ∧
      t.run o fs0 = { fs := fs0, tmpCtr := 0, events := [], actions := [] }) ∨
    ((lookupF fs0 hd).isSome = true ∧ o.transcodeOk hd (o.tmpName 0) = true ∧
      t.run o fs0 =
        { fs := setF fs0 (o.tmpName 0) (o.transcoded ((lookupF fs0 hd).getD "")),
          tmpCtr := 1,
          events := [Event.previewReady (o.tmpName 0), Event.progress 1 1],
          actions := [Action.allocTemp false (o.tmpName 0),
                      Action.ffmpeg hd (o.tmpName 0)] }) ∨
    ((lookupF fs0 hd).isSome = true ∧ o.transcodeOk hd (o.tmpName 0) = false ∧
      t.run o fs0 =
        { fs := fs0, tmpCtr := 1,
          events := [Event.failedMsg hd, Event.progress 1 1],
          actions := [Action.allocTemp false (o.tmpName 0),
                      Action.ffmpeg hd (o.tmpName 0)] }) := by
  have hrun : t.run o fs0 =
      processFile t o 1 0 hd { fs := fs0, tmpCtr := 0, events := [], actions := [] } := by
    rw [preview_run_events_eq t o fs0 hp, hl]
    simp [runLoop]
  by_cases hx : (lookupF fs0 hd).isSome = false
  · left
    refine ⟨hx, ?_⟩
    rw [hrun]
    unfold processFile
    simp [hx]
  · have hx2 : (lookupF fs0 hd).isSome = true := by
      revert hx; cases lookupF fs0 hd <;> simp
    by_cases ht : o.transcodeOk hd (o.tmpName 0) = true
    · right; left
      refine ⟨hx2, ht, ?_⟩
      rw [hrun, processFile_decomp]
      unfold pfFs pfCtr pfDelta pfActs pfOut
      simp [hx2, hp, ht]
    · right; right
      refine ⟨hx2, by simpa using ht, ?_⟩
      rw [hrun, processFile_decomp]
      unfold pfFs pfCtr pfDelta pfActs pfOut
      simp [hx2, hp, ht]


/-- C1 counterexample: on the spec's worked example `["a.mp3", "missing.mp3",
"b.mp3"]` (with `a.mp3` and `b.mp3` present and `missing.mp3` absent, every
transcode succeeding) the run does NOT emit three progress events
`(1,3), (2,3), (3,3)`, and no skip event for `missing.mp3` is emitted: the
missing file is passed over silently, without advancing progress. -/
theorem C1_counterexample :
    progressEvents (exampleBatch.run oracleAll fsAB).events ≠
      [(1, 3), (2, 3), (3, 3)] ∧
    Event.skipped "missing.mp3" ∉ (exampleBatch.run oracleAll fsAB).events := by
  exact ⟨by decide, by decide⟩

/-- C1 (amended): when an input file does not exist at processing time the
engine emits nothing for it — no skip event, no progress update — and leaves
the state untouched, continuing with the next file; on the worked example the
run emits only the two progress events `(1,3)` and `(3,3)` and converts
`a.mp3` and `b.mp3`. -/
theorem C1_missing_file_silently_skipped :
    (∀ (t : ConversionThread) (o : Oracle) (total idx : Nat) (input : String)
        (s : St), (lookupF s.fs input).isSome = false →
        processFile t o total idx input s = s) ∧
    progressEvents (exampleBatch.run oracleAll fsAB).events = [(1, 3), (3, 3)] ∧
    convertedNames (exampleBatch.run oracleAll fsAB).events = ["a.mp3", "b.mp3"] ∧
    ((exampleBatch.run oracleAll fsAB).events).filter isSkipped = [] := by
  refine ⟨?_, by decide, by decide, by decide⟩
  intro t o total idx input s h
  unfold processFile
  simp [h]

/-- Witness for C1 (amended): the missing file of the worked example leaves
the loop state unchanged. -/
theorem C1_missing_file_silently_skipped_witness :
    (lookupF fsAB "missing.mp3").isSome = false ∧
    processFile exampleBatch oracleAll 3 1 "missing.mp3"
        { fs := fsAB, tmpCtr := 0, events := [], actions := [] } =
      { fs := fsAB, tmpCtr := 0, events := [], actions := [] } :=
  ⟨by decide,
   C1_missing_file_silently_skipped.1 exampleBatch oracleAll 3 1 "missing.mp3"
     { fs := fsAB, tmpCtr := 0, events := [], actions := [] } (by decide)⟩

/-- C2: when the transcoder exits nonzero on a file that exists, the engine
emits the failure report followed by a progress update for that file, invokes
the transcoder exactly once for it (no retry), leaves the filesystem
unchanged, and the loop proceeds to the remaining files; no per-file error
aborts the run — every batch run still terminates with its final
run-complete signal. -/
theorem C2_transcode_failure_isolated (t : ConversionThread) (o : Oracle)
    (total idx : Nat) (input : String) (s : St) (rest : List String)
    (hx : (lookupF s.fs input).isSome = true)
    (hfail : o.transcodeOk input (pfOut t o input s.tmpCtr) = false) :
    (processFile t o total idx input s).events =
      s.events ++ [Event.failedMsg input, Event.progress (idx + 1) total] ∧
    ffmpegInputs (processFile t o total idx input s).actions =
      ffmpegInputs s.actions ++ [input] ∧
    (processFile t o total idx input s).fs = s.fs ∧
    runLoop t o total idx (input :: rest) s =
      runLoop t o total (idx + 1) rest (processFile t o total idx input s) ∧
    (∀ fs0 : FS, t.is_preview = false →
      ((t.run o fs0).events).getLast? =
        some (Event.runComplete t.output_folder)) := by
  refine ⟨?_, ?_, ?_, rfl, fun fs0 hb => batch_run_last t o fs0 hb⟩
  · rw [processFile_decomp]
    unfold pfDelta
    simp [hx, hfail]
  · rw [processFile_decomp, ffmpegInputs_append,
      ffmpegInputs_pfActs t o input s.fs s.tmpCtr hx]
  · rw [processFile_decomp]
    unfold pfFs
    simp [hx, hfail]

/-- Witness for C2: a concrete failing transcode of `a.mp3`. -/
theorem C2_transcode_failure_isolated_witness :
    (lookupF fsAB "a.mp3").isSome = true ∧
    oracleFailA.transcodeOk "a.mp3" (pfOut batch3 oracleFailA "a.mp3" 0) = false ∧
    (processFile batch3 oracleFailA 3 0 "a.mp3"
        { fs := fsAB, tmpCtr := 0, events := [], actions := [] }).events =
      [Event.failedMsg "a.mp3", Event.progress 1 3] :=
  ⟨by decide, by decide,
   by
    have h := C2_transcode_failure_isolated batch3 oracleFailA 3 0 "a.mp3"
      { fs := fsAB, tmpCtr := 0, events := [], actions := [] } ["b.mp3", "c.mp3"]
      (by decide) (by decide)
    simpa using h.1⟩

/-- C3: a batch run over `N` input files that all exist emits exactly `N`
progress events, whose payloads are `(1, N), (2, N), ..., (N, N)` in order —
the processed count is strictly increasing from 1 to `N`, with total `N` in
every event. -/
theorem C3_progress_exact (t : ConversionThread) (o : Oracle) (fs0 : FS)
    (hb : t.is_preview = false)
    (hex : ∀ f ∈ t.input_files, (lookupF fs0 f).isSome = true) :
    progressEvents (t.run o fs0).events =
      (List.range t.input_files.length).map
        (fun i => (i + 1, t.input_files.length)) ∧
    (progressEvents (t.run o fs0).events).length = t.input_files.length := by
  have hmain : progressEvents (t.run o fs0).events =
      (List.range t.input_files.length).map
        (fun i => (i + 1, t.input_files.length)) := by
    rw [batch_run_events t o fs0 hb, progressEvents_append,
      runLoop_progress t o t.input_files.length t.input_files 0
        { fs := fs0, tmpCtr := 0, events := [],
          actions := [Action.mkdirp t.output_folder] } hex]
    simp [progressEvents]
  exact ⟨hmain, by rw [hmain]; simp⟩

/-- Witness for C3: the three-file batch over existing files emits exactly
the progress events `(1,3), (2,3), (3,3)`. -/
theorem C3_progress_exact_witness :
    batch3.is_preview = false ∧
    progressEvents (batch3.run oracleAll fsABC).events = [(1, 3), (2, 3), (3, 3)] :=
  ⟨by decide,
   by
    have h := C3_progress_exact batch3 oracleAll fsABC (by decide) (by decide)
    simpa using h.1⟩


/-- C4: a preview submission (as built by `preview_audio`) narrows the input
list to its first element: the constructed thread holds exactly
`[files[0]]`, runs in preview mode without replace-original, invokes the
transcoder at most once and only on the first file, emits at most one
preview-ready signal, never a converted or run-complete signal, and the
constructed job is the same for any input list with the same first element. -/
theorem C4_preview_first_only (home : String) (files : List String) (speed : ℚ)
    (o : Oracle) (fs0 : FS) (acts : List Action) (t : ConversionThread)
    (hpa : preview_audio home files speed = some (acts, t)) :
    t.input_files = [files.headD ""] ∧
    t.is_preview = true ∧
    t.replace_original = false ∧
    (ffmpegInputs (t.run o fs0).actions).length ≤ 1 ∧
    (∀ i ∈ ffmpegInputs (t.run o fs0).actions, i = files.headD "") ∧
    countE isPreviewReady (t.run o fs0).events ≤ 1 ∧
    countE isConvertedE (t.run o fs0).events = 0 ∧
    countE isRunComplete (t.run o fs0).events = 0 ∧
    (∀ files2 : List String, files2.headD "" = files.headD "" → files2 ≠ [] →
      preview_audio home files2 speed = some (acts, t)) := by
  unfold preview_audio at hpa
  by_cases hne : files.isEmpty
  · simp [hne] at hpa
  · simp only [hne, Bool.false_eq_true, if_false, Option.some.injEq,
      Prod.mk.injEq] at hpa
    obtain ⟨hacts, ht⟩ := hpa
    subst ht
    subst hacts
    have hlast : ∀ files2 : List String,
        files2.headD "" = files.headD "" → files2 ≠ [] →
        preview_audio home files2 speed =
          some ([Action.mkdirp
                  (joinPath (joinPath home "Downloads") "AudioSpeedUpper_Preview")],
            { input_files := [files.headD ""], speed_factor := speed,
              output_folder :=
                joinPath (joinPath home "Downloads") "AudioSpeedUpper_Preview",
              is_preview := true, replace_original := false }) := by
      intro files2 hh hne2
      cases files2 with
      | nil => exact absurd rfl hne2
      | cons f2 r2 =>
          simp only [List.headD_cons] at hh
          simp [preview_audio, hh]
    rcases preview_run_cases
        { input_files := [files.headD ""], speed_factor := speed,
          output_folder :=
            joinPath (joinPath home "Downloads") "AudioSpeedUpper_Preview",
          is_preview := true, replace_original := false }
        o fs0 (files.headD "") rfl rfl with
      ⟨hx, hrun⟩ | ⟨hx, ht2, hrun⟩ | ⟨hx, ht2, hrun⟩ <;>
      exact ⟨rfl, rfl, rfl,
        by rw [hrun]; simp [ffmpegInputs],
        by rw [hrun]; simp [ffmpegInputs],
        by rw [hrun]; simp [countE, isPreviewReady],
        by rw [hrun]; simp [countE, isConvertedE],
        by rw [hrun]; simp [countE, isRunComplete],
        hlast⟩

/-- Witness for C4: a two-file selection previews only `a.mp3`. -/
theorem C4_preview_first_only_witness :
    preview_audio "/root" ["a.mp3", "b.mp3"] 2 =
      some ([Action.mkdirp previewFolderRoot], previewJobA) ∧
    (ffmpegInputs (previewJobA.run oracleAll fsAB).actions).length ≤ 1 :=
  ⟨by decide,
   (C4_preview_first_only "/root" ["a.mp3", "b.mp3"] 2 oracleAll fsAB
      [Action.mkdirp previewFolderRoot] previewJobA (by decide)).2.2.2.1⟩

/-- C5: a replace-original copy over an input path happens only when the run
is a batch run, the replace flag is enabled, and the transcode of that exact
file succeeded; when a file's transcode fails nothing is copied for it and
the filesystem is completely unchanged by that file's processing, and a
preview run never performs any copy. -/
theorem C5_replace_only_after_success (t : ConversionThread) (o : Oracle)
    (fs0 : FS) (total idx : Nat) (input : String) (s : St) :
    (∀ src dst, Action.copy2 src dst ∈ (t.run o fs0).actions →
        t.is_preview = false ∧ t.replace_original = true ∧
        o.transcodeOk dst src = true) ∧
    (t.is_preview = true →
      ∀ src dst, Action.copy2 src dst ∉ (t.run o fs0).actions) ∧
    ((lookupF s.fs input).isSome = true →
      o.transcodeOk input (pfOut t o input s.tmpCtr) = false →
      (processFile t o total idx input s).fs = s.fs ∧
      (∀ src dst, Action.copy2 src dst ∉ pfActs t o input s.fs s.tmpCtr)) := by
  have h1 : ∀ src dst, Action.copy2 src dst ∈ (t.run o fs0).actions →
      t.is_preview = false ∧ t.replace_original = true ∧
      o.transcodeOk dst src = true := by
    intro src dst hmem
    rcases run_actions_subset t o fs0 _ hmem with h | ⟨fs, ctr, input2, _, hpf⟩
    · simp at h
    · obtain ⟨hb, hr, _, _, hok⟩ := copy2_mem_pfActs hpf
      exact ⟨hb, hr, hok⟩
  refine ⟨h1, ?_, ?_⟩
  · intro hp src dst hmem
    have := (h1 src dst hmem).1
    rw [hp] at this
    exact absurd this (by simp)
  · intro hx hfail
    constructor
    · rw [processFile_decomp]
      unfold pfFs
      simp [hx, hfail]
    · intro src dst
      unfold pfActs
      simp [hx, hfail]

/-- Witness for C5: the concrete copy performed by the replace-original batch
job was preceded by a successful transcode of that file, in batch mode with
the flag enabled. -/
theorem C5_replace_only_after_success_witness :
    Action.copy2 "out/a.mp3" "a.mp3" ∈ (replJob.run oracleAll fsAB).actions ∧
    (replJob.is_preview = false ∧ replJob.replace_original = true ∧
      oracleAll.transcodeOk "a.mp3" "out/a.mp3" = true) :=
  ⟨by decide,
   (C5_replace_only_after_success replJob oracleAll fsAB 1 0 "a.mp3"
      { fs := fsAB, tmpCtr := 0, events := [], actions := [] }).1
     "out/a.mp3" "a.mp3" (by decide)⟩

/-- C6: in a batch run with replace-original enabled, when the transcode of a
file succeeds but the copy over the original fails, the copy error is
reported as a warning event, the converted event for that file is still
emitted (followed by its progress update), the produced artifact is present
at the computed output path, and the loop proceeds to the remaining files. -/
theorem C6_copy_failure_nonfatal (t : ConversionThread) (o : Oracle)
    (total idx : Nat) (input : String) (s : St) (rest : List String)
    (hb : t.is_preview = false) (hr : t.replace_original = true)
    (hx : (lookupF s.fs input).isSome = true)
    (hok : o.transcodeOk input (joinPath t.output_folder (basename input)) = true)
    (hcf : o.copyOk (joinPath t.output_folder (basename input)) input = false) :
    (processFile t o total idx input s).events =
      s.events ++ [Event.replaceErrMsg input, Event.convMsg input,
        Event.converted (basename input), Event.progress (idx + 1) total] ∧
    lookupF (processFile t o total idx input s).fs
        (joinPath t.output_folder (basename input)) =
      some (o.transcoded ((lookupF s.fs input).getD "")) ∧
    runLoop t o total idx (input :: rest) s =
      runLoop t o total (idx + 1) rest (processFile t o total idx input s) := by
  have hout : pfOut t o input s.tmpCtr = joinPath t.output_folder (basename input) := by
    unfold pfOut
    simp [hb]
  refine ⟨?_, ?_, rfl⟩
  · rw [processFile_decomp]
    unfold pfDelta
    rw [hout]
    simp [hx, hok, hcf, hb, hr]
  · rw [processFile_decomp]
    unfold pfFs
    rw [hout]
    simp [hx, hok, hcf, hb, hr, lookupF_setF]

/-- Witness for C6: transcode of `a.mp3` succeeds, the copy over the original
fails, and the file is still reported converted after the warning. -/
theorem C6_copy_failure_nonfatal_witness :
    replJob.is_preview = false ∧ replJob.replace_original = true ∧
    (processFile replJob oracleCopyFail 1 0 "a.mp3"
        { fs := fsAB, tmpCtr := 0, events := [], actions := [] }).events =
      [Event.replaceErrMsg "a.mp3", Event.convMsg "a.mp3",
       Event.converted "a.mp3", Event.progress 1 1] :=
  ⟨rfl, rfl, by
    have h := C6_copy_failure_nonfatal replJob oracleCopyFail 1 0 "a.mp3"
      { fs := fsAB, tmpCtr := 0, events := [], actions := [] } []
      (by decide) (by decide) (by decide) (by decide) (by decide)
    rw [h.1]
    decide⟩


theorem batch_run_actions (t : ConversionThread) (o : Oracle) (fs0 : FS)
    (h : t.is_preview = false) :
    (t.run o fs0).actions =
      (runLoop t o t.input_files.length 0 t.input_files
        { fs := fs0, tmpCtr := 0, events := [],
          actions := [Action.mkdirp t.output_folder] }).actions := by
  unfold ConversionThread.run
  simp [h]

/-- C7 counterexample: the preview run built from the single absent input
`missing.mp3` emits no preview-ready signal and no failure report at all —
neither "exactly one preview-ready" nor "exactly one failure signal" holds
for it. -/
theorem C7_counterexample :
    preview_audio "/root" ["missing.mp3"] 2 =
      some ([Action.mkdirp previewFolderRoot], previewJobMissing) ∧
    countE isPreviewReady (previewJobMissing.run oracleAll fsAB).events = 0 ∧
    countE isFailedMsg (previewJobMissing.run oracleAll fsAB).events = 0 ∧
    ¬(countE isPreviewReady (previewJobMissing.run oracleAll fsAB).events = 1 ∨
      countE isFailedMsg (previewJobMissing.run oracleAll fsAB).events = 1) := by
  exact ⟨by decide, by decide, by decide, by decide⟩

/-- C7 (amended): every batch run emits exactly one run-complete signal and
it is the last event of the run; a preview run (single input file, as built
by `preview_audio`) emits at most one preview-ready signal and at most one
failure report, never both, exactly one of the two when its input file
exists at processing time and none when it does not; and no preview run ever
emits the batch terminal signal. -/
theorem C7_terminal_signals (t : ConversionThread) (o : Oracle) (fs0 : FS)
    (tp : ConversionThread) (hd : String)
    (hp : tp.is_preview = true) (hl : tp.input_files = [hd]) :
    (t.is_preview = false →
      countE isRunComplete (t.run o fs0).events = 1 ∧
      ((t.run o fs0).events).getLast? =
        some (Event.runComplete t.output_folder)) ∧
    (t.is_preview = true → countE isRunComplete (t.run o fs0).events = 0) ∧
    countE isPreviewReady (tp.run o fs0).events ≤ 1 ∧
    countE isFailedMsg (tp.run o fs0).events ≤ 1 ∧
    ¬(countE isPreviewReady (tp.run o fs0).events = 1 ∧
      countE isFailedMsg (tp.run o fs0).events = 1) ∧
    ((lookupF fs0 hd).isSome = true →
      countE isPreviewReady (tp.run o fs0).events +
        countE isFailedMsg (tp.run o fs0).events = 1) ∧
    ((lookupF fs0 hd).isSome = false →
      countE isPreviewReady (tp.run o fs0).events = 0 ∧
      countE isFailedMsg (tp.run o fs0).events = 0) := by
  refine ⟨fun hb => ⟨batch_run_runComplete_count t o fs0 hb,
      batch_run_last t o fs0 hb⟩,
    fun hpv => preview_run_runComplete_count t o fs0 hpv, ?_, ?_, ?_, ?_, ?_⟩ <;>
    rcases preview_run_cases tp o fs0 hd hp hl with
      ⟨hx, hrun⟩ | ⟨hx, ht2, hrun⟩ | ⟨hx, ht2, hrun⟩ <;>
    rw [hrun] <;>
    simp_all [countE, isPreviewReady, isFailedMsg]

/-- Witness for C7: the three-file batch emits exactly one run-complete
signal; the single-file preview over an existing file emits at most one
preview-ready signal. -/
theorem C7_terminal_signals_witness :
    countE isRunComplete (batch3.run oracleAll fsAB).events = 1 ∧
    countE isPreviewReady (previewJobA.run oracleAll fsAB).events ≤ 1 :=
  ⟨((C7_terminal_signals batch3 oracleAll fsAB previewJobA "a.mp3" rfl rfl).1
      (by decide)).1,
   (C7_terminal_signals batch3 oracleAll fsAB previewJobA "a.mp3" rfl rfl).2.2.1⟩

/-- C8 counterexample: `convert_files` performs no speed-factor validation:
a job with speed factor 0 — non-positive, outside any accepted tempo range —
passes validation and the batch thread is started. -/
theorem C8_counterexample :
    convert_files ["a.mp3"] 0 "out" false true =
      ConvertOutcome.started
        { input_files := ["a.mp3"], speed_factor := 0,
          output_folder := "out", is_preview := false,
          replace_original := false } ∧
    isStarted (convert_files ["a.mp3"] 0 "out" false true) = true := by
  exact ⟨by decide, by decide⟩

/-- C8 (amended): pre-run validation rejects exactly the empty input list
(first warning) and a blank — after stripping whitespace — output folder
(second warning); in either case no conversion thread is constructed, so the
run never starts.  The speed factor is not validated: whether the run starts
is independent of its value (the GUI's combo box restricts it to a fixed set
of valid tempo values). -/
theorem C8_validation (input_files : List String) (speed s2 : ℚ)
    (output_text : String) (replace_checked user_confirms : Bool) :
    (input_files = [] →
      convert_files input_files speed output_text replace_checked user_confirms =
        ConvertOutcome.warnNoFiles) ∧
    (input_files ≠ [] → stripStr output_text = "" →
      convert_files input_files speed output_text replace_checked user_confirms =
        ConvertOutcome.warnNoOutput) ∧
    ((input_files = [] ∨ stripStr output_text = "") →
      ∀ u, convert_files input_files speed output_text replace_checked
        user_confirms ≠ ConvertOutcome.started u) ∧
    isStarted (convert_files input_files speed output_text replace_checked
        user_confirms) =
      isStarted (convert_files input_files s2 output_text replace_checked
        user_confirms) := by
  cases input_files with
  | nil =>
      refine ⟨fun _ => by simp [convert_files], fun hne _ => absurd rfl hne,
        fun _ u => by simp [convert_files], by simp [convert_files]⟩
  | cons f fs =>
      refine ⟨?_, ?_, ?_, ?_⟩
      · intro h
        exact absurd h (List.cons_ne_nil f fs)
      · intro _ hb
        simp [convert_files, hb]
      · intro hdisj u
        rcases hdisj with h | h
        · exact absurd h (List.cons_ne_nil f fs)
        · simp [convert_files, h]
      · by_cases hb : stripStr output_text = ""
        · simp [convert_files, hb]
        · by_cases hc : (replace_checked && !user_confirms) = true <;>
            simp [convert_files, hb, hc, isStarted]

/-- Witness for C8 (amended): a nonempty selection with a whitespace-only
output folder is rejected with the missing-output warning. -/
theorem C8_validation_witness :
    (["a.mp3"] : List String) ≠ [] ∧ stripStr "  " = "" ∧
    convert_files ["a.mp3"] 2 "  " false true = ConvertOutcome.warnNoOutput :=
  ⟨by decide, by decide,
   (C8_validation ["a.mp3"] 2 5 "  " false true).2.1 (by decide) (by decide)⟩

/-- C9 counterexample: the engine has no cancellation mechanism: on the
concrete three-file batch run the transcoder is invoked for files 2 and 3 as
well, three converted and three progress events are emitted, and no
cancellation event appears in the trace. -/
theorem C9_counterexample :
    ffmpegInputs (batch3.run oracleAll fsABC).actions =
      ["a.mp3", "b.mp3", "c.mp3"] ∧
    countE isConvertedE (batch3.run oracleAll fsABC).events = 3 ∧
    (progressEvents (batch3.run oracleAll fsABC).events).length = 3 ∧
    Event.cancelled ∉ (batch3.run oracleAll fsABC).events := by
  exact ⟨by decide, by decide, by decide, by decide⟩

/-- C9 (amended): the run loop checks no cancellation flag: once started, a
run dispatches every input file that exists to the transcoder, no run ever
emits a cancellation event, and no file is ever deleted — outputs already
produced are always left in place. -/
theorem C9_no_cancellation (t : ConversionThread) (o : Oracle) (fs0 : FS)
    (hex : ∀ f ∈ t.input_files, (lookupF fs0 f).isSome = true) :
    ffmpegInputs (t.run o fs0).actions = t.input_files ∧
    Event.cancelled ∉ (t.run o fs0).events ∧
    (∀ p, Action.deleteFile p ∉ (t.run o fs0).actions) := by
  refine ⟨?_, ?_, ?_⟩
  · by_cases hp : t.is_preview = true
    · rw [preview_run_events_eq t o fs0 hp,
        runLoop_ffmpeg t o t.input_files.length t.input_files 0 _ hex]
      simp [ffmpegInputs]
    · rw [batch_run_actions t o fs0 (by simpa using hp),
        runLoop_ffmpeg t o t.input_files.length t.input_files 0 _ hex]
      simp [ffmpegInputs]
  · intro hmem
    rcases run_events_subset t o fs0 _ hmem with h | h | ⟨fs, ctr, idx, input, _, h⟩
    · simp at h
    · simp at h
    · exact cancelled_not_mem_pfDelta t o t.input_files.length idx input fs ctr h
  · intro p hmem
    rcases run_actions_subset t o fs0 _ hmem with h | ⟨fs, ctr, input, _, h⟩
    · simp at h
    · exact deleteFile_not_mem_pfActs t o input fs ctr p h

/-- Witness for C9 (amended): on the three-file batch all three files are
dispatched. -/
theorem C9_no_cancellation_witness :
    (∀ f ∈ batch3.input_files, (lookupF fsABC f).isSome = true) ∧
    ffmpegInputs (batch3.run oracleAll fsABC).actions = batch3.input_files :=
  ⟨by decide, (C9_no_cancellation batch3 oracleAll fsABC (by decide)).1⟩

/-- C10: a preview run allocates its temporary output file with deletion
disabled (`delete=False`), never performs a delete, touches no filesystem
path other than the allocated temp path, and when the input exists and its
transcode succeeds the preview artifact is present at the temp path when the
run ends — it persists after the run. -/
theorem C10_preview_artifact_persists (t : ConversionThread) (o : Oracle)
    (fs0 : FS) (hd : String)
    (hp : t.is_preview = true) (hl : t.input_files = [hd]) :
    (∀ a ∈ (t.run o fs0).actions,
      a = Action.allocTemp false (o.tmpName 0) ∨
        a = Action.ffmpeg hd (o.tmpName 0)) ∧
    (∀ p, Action.deleteFile p ∉ (t.run o fs0).actions) ∧
    (∀ q, q ≠ o.tmpName 0 → lookupF (t.run o fs0).fs q = lookupF fs0 q) ∧
    ((lookupF fs0 hd).isSome = true → o.transcodeOk hd (o.tmpName 0) = true →
      lookupF (t.run o fs0).fs (o.tmpName 0) =
        some (o.transcoded ((lookupF fs0 hd).getD ""))) := by
  rcases preview_run_cases t o fs0 hd hp hl with
    ⟨hx, hrun⟩ | ⟨hx, ht2, hrun⟩ | ⟨hx, ht2, hrun⟩ <;> rw [hrun]
  · refine ⟨by simp, by simp, fun q _ => rfl, ?_⟩
    intro hx2 _
    rw [hx2] at hx
    cases hx
  · refine ⟨by simp, by simp, ?_, ?_⟩
    · intro q hq
      simp [lookupF_setF, hq]
    · intro _ _
      simp [lookupF_setF]
  · refine ⟨by simp, by simp, fun q _ => rfl, ?_⟩
    intro _ hok
    rw [hok] at ht2
    cases ht2

/-- Witness for C10: after the successful preview of `a.mp3` the artifact is
present at the temp path `tmp0.mp3`. -/
theorem C10_preview_artifact_persists_witness :
    previewJobA.is_preview = true ∧ previewJobA.input_files = ["a.mp3"] ∧
    lookupF (previewJobA.run oracleAll fsAB).fs "tmp0.mp3" = some "fast:A" :=
  ⟨rfl, rfl, by
    have h := (C10_preview_artifact_persists previewJobA oracleAll fsAB "a.mp3"
      rfl rfl).2.2.2 (by decide) (by decide)
    have e1 : oracleAll.tmpName 0 = "tmp0.mp3" := by decide
    have e2 : oracleAll.transcoded ((lookupF fsAB "a.mp3").getD "") = "fast:A" := by
      decide
    rw [e1, e2] at h
    exact h⟩


end SpeedUpper
